import Mathlib

/-!
# Verification of the core-db migration subsystem

Shallow embedding of `src/crates/core-db/src/migrations.rs` (module
`core-db::migrations`) together with the error type from
`src/crates/pkg/src/errors.rs`.

Modelling conventions:
* Rust `&'static str` / `String` become Lean `String`; `i32`/`i64` become `Int`
  (no arithmetic in the subsystem comes near the i32 range, and overflow is
  impossible for the counters involved).
* The Postgres pool is modelled by an explicit database state `DbState`
  (does the `_schema_migrations` table exist, and its rows) threaded through
  the operations, plus an environment `Env` supplying the outcome of executing
  a migration's raw SQL (failure text or measured execution time) and the
  server-assigned timestamp, already in its `to_char`-formatted form.
  The store itself is assumed functioning: DDL on the tracking table, the
  `COUNT(*)` probe and the ledger `INSERT` of a fresh `(module, version)` key
  succeed, while executing a migration's own SQL may fail (that is the failure
  mode the code handles and reports).
* `sqlx` row decoding of `execution_time_ms` as a non-nullable `i32` is
  modelled on `Option Int`: a `NULL` (i.e. `none`) makes the whole fetch fail.
-/

namespace CoreDb

/-- `Migration` struct: module, version, name and SQL body of one schema
change (`pub struct Migration`). -/
structure Migration where
  module : String
  version : Int
  name : String
  sql : String
deriving DecidableEq

/-- `Migration::checksum`: `format!("{}-{}-{}", len, first as u32, last as u32)`
where `len` is the byte length of `sql`, and `first`/`last` are its first and
last characters, defaulting to `'0'` on an empty string. -/
def Migration.checksum (m : Migration) : String :=
  let len := m.sql.utf8ByteSize
  let first := m.sql.data.head?.getD '0'
  let last := m.sql.data.getLast?.getD '0'
  toString len ++ "-" ++ toString first.toNat ++ "-" ++ toString last.toNat

/-- `Migration::id`: `format!("{}:version_{}", self.module, self.version)`. -/
def Migration.id (m : Migration) : String :=
  m.module ++ ":version_" ++ toString m.version

/-- One row of the `_schema_migrations` tracking table.  The `SERIAL` surrogate
key does not influence any behaviour of the subsystem and is omitted; the
server-assigned `applied_at` timestamp is kept in its formatted string form.
`execution_time_ms` is declared nullable in the DDL, hence `Option Int`. -/
structure LedgerRow where
  module : String
  version : Int
  name : String
  checksum : String
  appliedAt : String
  executionTimeMs : Option Int
deriving DecidableEq

/-- The backing store as seen by this subsystem: whether the tracking table
exists, and its rows in insertion order. -/
structure DbState where
  tableExists : Bool
  rows : List LedgerRow
deriving DecidableEq

/-- Environment of a run: the outcome of `sqlx::raw_sql(sql).execute(pool)`
for each migration body (error text, or success with the measured wall-clock
duration in ms), and the server clock's formatted timestamp for inserts. -/
structure Env where
  execSql : String → Except String Int
  now : String

/-- `pkg::RepositoryError` (`src/crates/pkg/src/errors.rs`); the `Uuid` payloads
are kept as strings. -/
inductive RepositoryError where
  | NotFound (id : String)
  | AlreadyExists (id : String)
  | ValidationError (msg : String)
  | DatabaseError (msg : String)
  | InternalError (msg : String)
  | Unauthorized (msg : String)
  | Forbidden (msg : String)
  | BadRequest (msg : String)
deriving DecidableEq

/-- `MigrationRunner::ensure_migrations_table`: `CREATE TABLE IF NOT EXISTS`
on the tracking table (plus its two indexes, which carry no data).  A freshly
created table has no rows. -/
def ensure_migrations_table (s : DbState) : DbState :=
  if s.tableExists then s else { tableExists := true, rows := [] }

/-- The `SELECT COUNT(*) ... WHERE module = $1 AND version = $2` probe:
does the ledger hold a row for this `(module, version)` key? -/
def hasEntry (rows : List LedgerRow) (md : String) (v : Int) : Bool :=
  rows.any (fun r => r.module == md && r.version == v)

/-- `MigrationRunner::is_applied`: the count probe returns a positive count
exactly when a row with the migration's `(module, version)` exists. -/
def is_applied (s : DbState) (m : Migration) : Bool :=
  hasEntry s.rows m.module m.version

/-- The row inserted by `record_migration` for a migration that executed in
`t` ms: its module, version, name, computed checksum, the server timestamp
and the measured duration. -/
def ledgerRowOf (env : Env) (m : Migration) (t : Int) : LedgerRow :=
  { module := m.module
    version := m.version
    name := m.name
    checksum := m.checksum
    appliedAt := env.now
    executionTimeMs := some t }

/-- `MigrationRunner::record_migration`: `INSERT INTO _schema_migrations ...`.
The inserted key is always fresh (the runner only records after `is_applied`
returned false), so the store's `UNIQUE(module, version)` accepts it. -/
def record_migration (env : Env) (s : DbState) (m : Migration) (t : Int) : DbState :=
  { s with rows := s.rows ++ [ledgerRowOf env m t] }

/-- `MigrationRunner::run_migration`: execute the migration's SQL; on failure
wrap the store error as
`DatabaseError ("Migration " ++ id ++ " failed: " ++ e)`, on success return
the measured execution time. -/
def run_migration (env : Env) (m : Migration) : Except RepositoryError Int :=
  match env.execSql m.sql with
  | .error e => .error (.DatabaseError ("Migration " ++ m.id ++ " failed: " ++ e))
  | .ok t => .ok t

/-- Push `m` onto the bucket of its module inside the accumulated grouping —
the `by_module.entry(migration.module).or_insert_with(Vec::new).push(migration)`
step for a key already present.  A `HashMap` holds one bucket per key, so the
first (unique) matching bucket is extended. -/
def addToModule (key : String) (m : Migration) :
    List (String × List Migration) → List (String × List Migration)
  | [] => []
  | p :: ps =>
    if p.1 == key then (p.1, p.2 ++ [m]) :: ps else p :: addToModule key m ps

/-- One step of building `by_module`. -/
def groupStep (acc : List (String × List Migration)) (m : Migration) :
    List (String × List Migration) :=
  if acc.any (fun p => p.1 == m.module) then addToModule m.module m acc
  else acc ++ [(m.module, [m])]

/-- The `by_module : HashMap<&str, Vec<&Migration>>` grouping loop of
`run_migrations`: one bucket per module, each bucket in input order.  The
bucket list is kept in first-occurrence order of the modules; the Rust
`HashMap` iterates its buckets in an arbitrary order, and every property
proved below about whole-run results is insensitive to that order, while the
ordering facts proved below concern a single bucket, whose order the `Vec`
fixes deterministically. -/
def groupByModule (migs : List Migration) : List (String × List Migration) :=
  migs.foldl groupStep []

/-- The sequence in which the nested `for` loops of `run_migrations` visit the
migrations: modules one after the other, each module's migrations in input
order. -/
def processOrder (migs : List Migration) : List Migration :=
  ((groupByModule migs).map Prod.snd).flatten

deriving instance DecidableEq for Except

/-- Observable outcome of a `run_migrations` call: the returned `Result`, the
final database state, the `total_applied` and `total_skipped` counters, and
the trace of migration-SQL executions attempted against the store, in order. -/
structure RunResult where
  result : Except RepositoryError Unit
  state : DbState
  applied : Nat
  skipped : Nat
  trace : List String
deriving DecidableEq

/-- The body of the nested loops of `run_migrations`, walking the visit
sequence: skip an already-applied migration, otherwise execute its SQL
(recording the attempt in the trace) and, on success, insert its ledger row;
the first failure aborts the whole call with the wrapped error. -/
def processAll (env : Env) : DbState → Nat → Nat → List String → List Migration → RunResult
  | s, a, k, tr, [] => ⟨.ok (), s, a, k, tr⟩
  | s, a, k, tr, m :: rest =>
    if is_applied s m then
      processAll env s a (k + 1) tr rest
    else
      match run_migration env m with
      | .error e => ⟨.error e, s, a, k, tr ++ [m.sql]⟩
      | .ok t => processAll env (record_migration env s m t) (a + 1) k (tr ++ [m.sql]) rest

/-- `MigrationRunner::run_migrations`: ensure the tracking table, group the
input by module, and process every migration.  (The `get_applied_migrations`
read between those steps only feeds a log line and no decision, so it has no
observable effect here.) -/
def run_migrations (env : Env) (s : DbState) (migs : List Migration) : RunResult :=
  processAll env (ensure_migrations_table s) 0 0 [] (processOrder migs)

/-- `MigrationStatus` as returned by `get_status`. -/
structure MigrationStatus where
  module : String
  version : Int
  name : String
  applied_at : String
  execution_time_ms : Int
deriving DecidableEq

/-- The `ORDER BY module, version` of the status query. -/
def rowLe (r1 r2 : LedgerRow) : Bool :=
  decide (r1.module < r2.module) || (r1.module == r2.module && decide (r1.version ≤ r2.version))

/-- Insert one row into an already ordered list (model of the store's sort). -/
def insertRow (r : LedgerRow) : List LedgerRow → List LedgerRow
  | [] => [r]
  | x :: xs => if rowLe r x then r :: x :: xs else x :: insertRow r xs

/-- Sort the ledger rows by `(module, version)` — the result set order of the
status query. -/
def sortRows : List LedgerRow → List LedgerRow
  | [] => []
  | x :: xs => insertRow x (sortRows xs)

/-- Decode one fetched row as the tuple `(String, i32, String, String, i32)`:
the non-nullable `i32` decode of `execution_time_ms` fails on `NULL`. -/
def decodeRow (r : LedgerRow) : Option MigrationStatus :=
  match r.executionTimeMs with
  | some t => some ⟨r.module, r.version, r.name, r.appliedAt, t⟩
  | none => none

/-- `fetch_all` decoding: the first undecodable row fails the whole fetch. -/
def decodeRows : List LedgerRow → Option (List MigrationStatus)
  | [] => some []
  | r :: rs =>
    match decodeRow r, decodeRows rs with
    | some st, some sts => some (st :: sts)
    | _, _ => none

/-- The text of the sqlx decode error for a `NULL` in a non-nullable column
(library-supplied; its exact wording is outside this repository). -/
def sqlxNullDecodeError : String :=
  "error occurred while decoding column \x22execution_time_ms\x22"

/-- `MigrationRunner::get_status`: ensure the tracking table, fetch every row
ordered by module and version, and decode each into a `MigrationStatus`;
a decode failure is wrapped as
`DatabaseError ("Failed to fetch migration status: " ++ e)`.  Returns the
(possibly table-created) state together with the result. -/
def get_status (s : DbState) : DbState × Except RepositoryError (List MigrationStatus) :=
  let s1 := ensure_migrations_table s
  match decodeRows (sortRows s1.rows) with
  | some l => (s1, .ok l)
  | none =>
    (s1, .error (.DatabaseError ("Failed to fetch migration status: " ++ sqlxNullDecodeError)))

/-- Projection of a status onto the data a ledger row carries into it. -/
def statusTuple (st : MigrationStatus) : String × Int × String × String × Option Int :=
  (st.module, st.version, st.name, st.applied_at, some st.execution_time_ms)

/-- Projection of a ledger row onto the data `get_status` reports about it. -/
def rowTuple (r : LedgerRow) : String × Int × String × String × Option Int :=
  (r.module, r.version, r.name, r.appliedAt, r.executionTimeMs)

/-- Replace every stored checksum (an out-of-band edit of the ledger used to
state that the runner never compares checksums). -/
def setChecksums (f : String → String) (s : DbState) : DbState :=
  { s with rows := s.rows.map (fun r => { r with checksum := f r.checksum }) }

/-- Two ledger rows with distinct `(module, version)` keys (the uniqueness
constraint of the tracking table). -/
def keyNe (r1 r2 : LedgerRow) : Prop :=
  ¬(r1.module = r2.module ∧ r1.version = r2.version)

/-! ### Concrete instances used in witnesses and counterexamples -/

def usersV1 : Migration :=
  ⟨"users", 1, "create_users_table", "CREATE TABLE users (id UUID PRIMARY KEY);"⟩

def usersV2 : Migration :=
  ⟨"users", 2, "add_email", "ALTER TABLE users ADD COLUMN email VARCHAR(255);"⟩

def usersV3 : Migration :=
  ⟨"users", 3, "add_index", "CREATE INDEX idx_users_email ON users(email);"⟩

/-- A store on which every migration body executes successfully in 3 ms. -/
def okEnv : Env := ⟨fun _ => .ok 3, "2025-01-01 00:00:00"⟩

/-- A store on which the SQL of `usersV2` fails and everything else runs. -/
def failV2Env : Env :=
  ⟨fun sql => if sql == usersV2.sql then .error "syntax error at or near ADD" else .ok 3,
   "2025-01-01 00:00:00"⟩

/-- Database before any run: no tracking table. -/
def freshDb : DbState := ⟨false, []⟩

/-- The ledger row the runner records for `usersV1` under `okEnv`. -/
def v1Row : LedgerRow := ledgerRowOf okEnv usersV1 3

/-- Ledger after version 1 was applied and recorded (the state a run that
failed on version 2 leaves behind). -/
def v1Db : DbState := ⟨true, [v1Row]⟩

/-- A ledger row with `NULL` `execution_time_ms`, inserted outside this
subsystem (the column is declared nullable). -/
def nullRow : LedgerRow :=
  { module := "legacy", version := 1, name := "manual", checksum := "x",
    appliedAt := "2024-01-01 00:00:00", executionTimeMs := none }

def nullDb : DbState := ⟨true, [nullRow]⟩

/-- Two descriptors whose SQL bodies differ only in an interior character:
same byte length, first character and last character. -/
def collideA : Migration := ⟨"users", 1, "t", "CREATE TABLE aaa;"⟩

def collideB : Migration := ⟨"users", 1, "t", "CREATE TABLE bbb;"⟩

end CoreDb


namespace CoreDb

/-! ## Basic lemmas about the ledger probes and table creation -/

theorem hasEntry_append (l1 l2 : List LedgerRow) (md : String) (v : Int) :
    hasEntry (l1 ++ l2) md v = (hasEntry l1 md v || hasEntry l2 md v) := by
  simp [hasEntry, List.any_append]

theorem is_applied_mono {s s2 : DbState} (h : s.rows <+: s2.rows) {m : Migration}
    (ha : is_applied s m = true) : is_applied s2 m = true := by
  obtain ⟨t, ht⟩ := h
  simp only [is_applied] at *
  rw [← ht, hasEntry_append, ha, Bool.true_or]

theorem ensure_tableExists (s : DbState) :
    (ensure_migrations_table s).tableExists = true := by
  by_cases h : s.tableExists <;> simp [ensure_migrations_table, h]

theorem ensure_of_tableExists {s : DbState} (h : s.tableExists = true) :
    ensure_migrations_table s = s := by
  simp [ensure_migrations_table, h]

theorem is_applied_record (env : Env) (s : DbState) (m : Migration) (t : Int) :
    is_applied (record_migration env s m t) m = true := by
  simp [is_applied, record_migration, hasEntry, ledgerRowOf]

/-! ## Structural lemmas about the processing loop -/

theorem processAll_tableExists (env : Env) (l : List Migration) :
    ∀ (s : DbState) (a k : Nat) (tr : List String),
      (processAll env s a k tr l).state.tableExists = s.tableExists := by
  induction l with
  | nil => intro s a k tr; rfl
  | cons m rest ih =>
    intro s a k tr
    cases hap : is_applied s m with
    | true => simpa [processAll, hap] using ih s a (k + 1) tr
    | false =>
      cases hr : run_migration env m with
      | error e => simp [processAll, hap, hr]
      | ok t =>
        simpa [processAll, hap, hr, record_migration] using
          ih (record_migration env s m t) (a + 1) k (tr ++ [m.sql])

theorem processAll_rows_extend (env : Env) (l : List Migration) :
    ∀ (s : DbState) (a k : Nat) (tr : List String),
      s.rows <+: (processAll env s a k tr l).state.rows := by
  induction l with
  | nil => intro s a k tr; exact ⟨[], List.append_nil _⟩
  | cons m rest ih =>
    intro s a k tr
    cases hap : is_applied s m with
    | true => simpa [processAll, hap] using ih s a (k + 1) tr
    | false =>
      cases hr : run_migration env m with
      | error e =>
        simp only [processAll, hap, hr]
        exact ⟨[], List.append_nil _⟩
      | ok t =>
        have h1 : s.rows <+: (record_migration env s m t).rows :=
          ⟨[ledgerRowOf env m t], rfl⟩
        have h2 := ih (record_migration env s m t) (a + 1) k (tr ++ [m.sql])
        simpa [processAll, hap, hr] using h1.trans h2

theorem processAll_all_applied (env : Env) (l : List Migration) :
    ∀ (s : DbState) (a k : Nat) (tr : List String),
      (∀ m ∈ l, is_applied s m = true) →
      processAll env s a k tr l = ⟨.ok (), s, a, k + l.length, tr⟩ := by
  induction l with
  | nil => intro s a k tr _; rfl
  | cons m rest ih =>
    intro s a k tr h
    have hap := h m (List.mem_cons_self m rest)
    have hrec := ih s a (k + 1) tr (fun m2 hm2 => h m2 (List.mem_cons_of_mem m hm2))
    simp only [processAll, hap, if_true, hrec, List.length_cons]
    congr 1
    omega

theorem processAll_ok_applied (env : Env) (l : List Migration) :
    ∀ (s : DbState) (a k : Nat) (tr : List String),
      (processAll env s a k tr l).result = .ok () →
      ∀ m ∈ l, is_applied (processAll env s a k tr l).state m = true := by
  induction l with
  | nil => intro s a k tr _ m hm; cases hm
  | cons m0 rest ih =>
    intro s a k tr hok m hm
    cases hap : is_applied s m0 with
    | true =>
      have hred : processAll env s a k tr (m0 :: rest) = processAll env s a (k + 1) tr rest := by
        simp [processAll, hap]
      rw [hred] at hok ⊢
      rcases List.mem_cons.mp hm with rfl | hm2
      · exact is_applied_mono (processAll_rows_extend env rest s a (k + 1) tr) hap
      · exact ih s a (k + 1) tr hok m hm2
    | false =>
      cases hr : run_migration env m0 with
      | error e =>
        have hbad : (processAll env s a k tr (m0 :: rest)).result = .error e := by
          simp [processAll, hap, hr]
        rw [hbad] at hok
        simp at hok
      | ok t =>
        have hred : processAll env s a k tr (m0 :: rest)
            = processAll env (record_migration env s m0 t) (a + 1) k (tr ++ [m0.sql]) rest := by
          simp [processAll, hap, hr]
        rw [hred] at hok ⊢
        rcases List.mem_cons.mp hm with rfl | hm2
        · exact is_applied_mono (processAll_rows_extend env rest _ _ _ _)
            (is_applied_record env s m t)
        · exact ih _ _ _ _ hok m hm2

end CoreDb

namespace CoreDb

/-! ## The visit sequence is a permutation of the input -/

theorem flattenSnd_addToModule (key : String) (m : Migration) :
    ∀ acc : List (String × List Migration),
      acc.any (fun p => p.1 == key) = true →
      List.Perm (((addToModule key m acc).map Prod.snd).flatten)
        ((acc.map Prod.snd).flatten ++ [m]) := by
  intro acc
  induction acc with
  | nil => intro h; simp at h
  | cons p ps ih =>
    intro h
    cases hk : (p.1 == key) with
    | true =>
      simp only [addToModule, hk, if_true, List.map_cons, List.flatten_cons,
        List.append_assoc]
      exact List.Perm.append_left p.2 List.perm_append_comm
    | false =>
      have h2 : ps.any (fun q => q.1 == key) = true := by
        simpa [List.any_cons, hk] using h
      simp only [addToModule, hk, Bool.false_eq_true, if_false, List.map_cons,
        List.flatten_cons, List.append_assoc]
      exact List.Perm.append_left p.2 (ih h2)

theorem processOrder_perm_aux (l : List Migration) :
    ∀ acc : List (String × List Migration),
      List.Perm (((l.foldl groupStep acc).map Prod.snd).flatten)
        ((acc.map Prod.snd).flatten ++ l) := by
  induction l with
  | nil => intro acc; simp
  | cons m rest ih =>
    intro acc
    have hstep : List.Perm (((groupStep acc m).map Prod.snd).flatten)
        ((acc.map Prod.snd).flatten ++ [m]) := by
      unfold groupStep
      cases hany : acc.any (fun p => p.1 == m.module) with
      | true => simpa [hany] using flattenSnd_addToModule m.module m acc hany
      | false => simp [hany]
    have hrest := ih (groupStep acc m)
    have hcomp := hrest.trans (hstep.append_right rest)
    simpa [List.append_assoc] using hcomp

theorem processOrder_perm (migs : List Migration) :
    List.Perm (processOrder migs) migs := by
  simpa [processOrder, groupByModule] using processOrder_perm_aux migs []

theorem processOrder_length (migs : List Migration) :
    (processOrder migs).length = migs.length :=
  (processOrder_perm migs).length_eq

/-! ## The runner never reads the stored checksums -/

theorem setChecksums_tableExists (f : String → String) (s : DbState) :
    (setChecksums f s).tableExists = s.tableExists := rfl

theorem is_applied_setChecksums (f : String → String) (s : DbState) (m : Migration) :
    is_applied (setChecksums f s) m = is_applied s m := by
  simp only [is_applied, setChecksums, hasEntry, List.any_map]
  rfl

end CoreDb

namespace CoreDb

/-! ## Failure decomposition of the processing loop -/

theorem processAll_error (env : Env) (l : List Migration) :
    ∀ (s : DbState) (a k : Nat) (tr : List String) (err : RepositoryError),
      (processAll env s a k tr l).result = .error err →
      ∃ l1 m l2 e,
        l = l1 ++ m :: l2 ∧
        env.execSql m.sql = .error e ∧
        err = .DatabaseError ("Migration " ++ m.id ++ " failed: " ++ e) ∧
        (processAll env s a k tr l1).result = .ok () ∧
        processAll env s a k tr l
          = ⟨.error err, (processAll env s a k tr l1).state,
             (processAll env s a k tr l1).applied, (processAll env s a k tr l1).skipped,
             (processAll env s a k tr l1).trace ++ [m.sql]⟩ ∧
        is_applied (processAll env s a k tr l1).state m = false := by
  induction l with
  | nil => intro s a k tr err h; simp [processAll] at h
  | cons m0 rest ih =>
    intro s a k tr err h
    cases hap : is_applied s m0 with
    | true =>
      have hred : processAll env s a k tr (m0 :: rest) = processAll env s a (k + 1) tr rest := by
        simp [processAll, hap]
      rw [hred] at h
      obtain ⟨l1, m, l2, e, hsplit, hex, herr, hok, heq, hna⟩ := ih s a (k + 1) tr err h
      have hred1 : processAll env s a k tr (m0 :: l1) = processAll env s a (k + 1) tr l1 := by
        simp [processAll, hap]
      refine ⟨m0 :: l1, m, l2, e, by rw [hsplit]; rfl, hex, herr, ?_, ?_, ?_⟩
      · rw [hred1]; exact hok
      · rw [hred, hred1]; exact heq
      · rw [hred1]; exact hna
    | false =>
      cases hx : env.execSql m0.sql with
      | error e =>
        have hrm : run_migration env m0
            = .error (.DatabaseError ("Migration " ++ m0.id ++ " failed: " ++ e)) := by
          simp [run_migration, hx]
        have hred : processAll env s a k tr (m0 :: rest)
            = ⟨.error (.DatabaseError ("Migration " ++ m0.id ++ " failed: " ++ e)),
               s, a, k, tr ++ [m0.sql]⟩ := by
          simp [processAll, hap, hrm]
        rw [hred] at h
        have herr : err = .DatabaseError ("Migration " ++ m0.id ++ " failed: " ++ e) := by
          simpa using h.symm
        refine ⟨[], m0, rest, e, rfl, hx, herr, rfl, ?_, hap⟩
        rw [hred, herr]
        rfl
      | ok t =>
        have hrm : run_migration env m0 = .ok t := by simp [run_migration, hx]
        have hred : processAll env s a k tr (m0 :: rest)
            = processAll env (record_migration env s m0 t) (a + 1) k (tr ++ [m0.sql]) rest := by
          simp [processAll, hap, hrm]
        rw [hred] at h
        obtain ⟨l1, m, l2, e, hsplit, hex, herr, hok, heq, hna⟩ := ih _ _ _ _ err h
        have hred1 : processAll env s a k tr (m0 :: l1)
            = processAll env (record_migration env s m0 t) (a + 1) k (tr ++ [m0.sql]) l1 := by
          simp [processAll, hap, hrm]
        refine ⟨m0 :: l1, m, l2, e, by rw [hsplit]; rfl, hex, herr, ?_, ?_, ?_⟩
        · rw [hred1]; exact hok
        · rw [hred, hred1]; exact heq
        · rw [hred1]; exact hna

/-! ## Append-only characterisation of a run's effect on the ledger -/

theorem processAll_seg (env : Env) (l : List Migration) :
    ∀ (s : DbState) (a k : Nat) (tr : List String),
      ∃ seg,
        (processAll env s a k tr l).state.rows = s.rows ++ seg ∧
        (∀ row ∈ seg, ∃ m t, m ∈ l ∧ env.execSql m.sql = .ok t ∧ row = ledgerRowOf env m t) ∧
        List.Pairwise keyNe seg ∧
        (∀ row ∈ seg, hasEntry s.rows row.module row.version = false) := by
  induction l with
  | nil =>
    intro s a k tr
    exact ⟨[], (List.append_nil _).symm, by simp, List.Pairwise.nil, by simp⟩
  | cons m0 rest ih =>
    intro s a k tr
    cases hap : is_applied s m0 with
    | true =>
      have hred : processAll env s a k tr (m0 :: rest) = processAll env s a (k + 1) tr rest := by
        simp [processAll, hap]
      obtain ⟨seg, h1, h2, h3, h4⟩ := ih s a (k + 1) tr
      rw [hred]
      refine ⟨seg, h1, ?_, h3, h4⟩
      intro row hrow
      obtain ⟨m, t, hm, hex, hrw⟩ := h2 row hrow
      exact ⟨m, t, List.mem_cons_of_mem _ hm, hex, hrw⟩
    | false =>
      cases hx : env.execSql m0.sql with
      | error e =>
        have hrm : run_migration env m0
            = .error (.DatabaseError ("Migration " ++ m0.id ++ " failed: " ++ e)) := by
          simp [run_migration, hx]
        have hred : processAll env s a k tr (m0 :: rest)
            = ⟨.error (.DatabaseError ("Migration " ++ m0.id ++ " failed: " ++ e)),
               s, a, k, tr ++ [m0.sql]⟩ := by
          simp [processAll, hap, hrm]
        rw [hred]
        exact ⟨[], (List.append_nil _).symm, by simp, List.Pairwise.nil, by simp⟩
      | ok t =>
        have hrm : run_migration env m0 = .ok t := by simp [run_migration, hx]
        have hred : processAll env s a k tr (m0 :: rest)
            = processAll env (record_migration env s m0 t) (a + 1) k (tr ++ [m0.sql]) rest := by
          simp [processAll, hap, hrm]
        obtain ⟨seg, h1, h2, h3, h4⟩ := ih (record_migration env s m0 t) (a + 1) k (tr ++ [m0.sql])
        rw [hred]
        refine ⟨ledgerRowOf env m0 t :: seg, ?_, ?_, ?_, ?_⟩
        · rw [h1]; simp [record_migration]
        · intro row hrow
          rcases List.mem_cons.mp hrow with rfl | hrow2
          · exact ⟨m0, t, List.mem_cons_self m0 rest, hx, rfl⟩
          · obtain ⟨m, t2, hm, hex, hrw⟩ := h2 row hrow2
            exact ⟨m, t2, List.mem_cons_of_mem _ hm, hex, hrw⟩
        · refine List.Pairwise.cons ?_ h3
          intro row hrow
          have h5 := h4 row hrow
          rw [record_migration] at h5
          simp only [hasEntry_append, Bool.or_eq_false_iff] at h5
          have h6 := h5.2
          simp only [hasEntry, List.any_cons, List.any_nil, Bool.or_false,
            Bool.and_eq_false_iff, ledgerRowOf] at h6
          intro hkey
          simp only [ledgerRowOf] at hkey
          rcases h6 with h6 | h6
          · simp [hkey.1] at h6
          · simp [hkey.2] at h6
        · intro row hrow
          rcases List.mem_cons.mp hrow with rfl | hrow2
          · simpa [is_applied, ledgerRowOf] using hap
          · have h5 := h4 row hrow2
            rw [record_migration] at h5
            simp only [hasEntry_append, Bool.or_eq_false_iff] at h5
            exact h5.1

end CoreDb

namespace CoreDb

/-! ## A run over pending, key-distinct migrations applies all of them -/

theorem processAll_fresh (env : Env) (T : Migration → Int) (l : List Migration) :
    ∀ (s : DbState) (a k : Nat) (tr : List String),
      (∀ m ∈ l, is_applied s m = false) →
      List.Pairwise (fun x y => ¬(x.module = y.module ∧ x.version = y.version)) l →
      (∀ m ∈ l, env.execSql m.sql = .ok (T m)) →
      processAll env s a k tr l
        = ⟨.ok (), ⟨s.tableExists, s.rows ++ l.map (fun m => ledgerRowOf env m (T m))⟩,
           a + l.length, k, tr ++ l.map Migration.sql⟩ := by
  induction l with
  | nil => intro s a k tr _ _ _; simp [processAll]
  | cons m0 rest ih =>
    intro s a k tr hfresh hpw hexec
    have hap : is_applied s m0 = false := hfresh m0 (List.mem_cons_self m0 rest)
    have hx : env.execSql m0.sql = .ok (T m0) := hexec m0 (List.mem_cons_self m0 rest)
    have hrm : run_migration env m0 = .ok (T m0) := by simp [run_migration, hx]
    have hpw2 := List.pairwise_cons.mp hpw
    have hfresh2 : ∀ m ∈ rest, is_applied (record_migration env s m0 (T m0)) m = false := by
      intro m hm
      have h1 : is_applied s m = false := hfresh m (List.mem_cons_of_mem _ hm)
      have hkey := hpw2.1 m hm
      simp only [is_applied, record_migration] at *
      rw [hasEntry_append, h1, Bool.false_or]
      simp only [hasEntry, List.any_cons, List.any_nil, Bool.or_false, ledgerRowOf,
        Bool.and_eq_false_iff]
      by_cases hmod : m0.module = m.module
      · by_cases hver : m0.version = m.version
        · exact absurd ⟨hmod, hver⟩ hkey
        · right; simpa using hver
      · left; simpa using hmod
    have hrec := ih (record_migration env s m0 (T m0)) (a + 1) k (tr ++ [m0.sql])
      hfresh2 hpw2.2 (fun m hm => hexec m (List.mem_cons_of_mem _ hm))
    have hred : processAll env s a k tr (m0 :: rest)
        = processAll env (record_migration env s m0 (T m0)) (a + 1) k (tr ++ [m0.sql]) rest := by
      simp [processAll, hap, hrm]
    rw [hred, hrec]
    have hlen : a + 1 + rest.length = a + (rest.length + 1) := by omega
    simp [record_migration, List.append_assoc, hlen]

/-! ## A single-module input is visited exactly in input order -/

theorem foldl_groupStep_single (md : String) (l : List Migration) :
    ∀ pre : List Migration, (∀ m ∈ l, m.module = md) →
      l.foldl groupStep [(md, pre)] = [(md, pre ++ l)] := by
  induction l with
  | nil => intro pre _; simp
  | cons m rest ih =>
    intro pre h
    have hm : m.module = md := h m (List.mem_cons_self m rest)
    have hstep : groupStep [(md, pre)] m = [(md, pre ++ [m])] := by
      simp [groupStep, hm, addToModule]
    rw [List.foldl_cons, hstep, ih (pre ++ [m]) (fun x hx => h x (List.mem_cons_of_mem _ hx))]
    simp

theorem processOrder_single (md : String) (migs : List Migration)
    (h : ∀ m ∈ migs, m.module = md) : processOrder migs = migs := by
  cases migs with
  | nil => rfl
  | cons m rest =>
    have hm : m.module = md := h m (List.mem_cons_self m rest)
    have h0 : groupStep [] m = [(m.module, [m])] := by simp [groupStep]
    rw [processOrder, groupByModule, List.foldl_cons, h0, hm,
      foldl_groupStep_single md rest [m] (fun x hx => h x (List.mem_cons_of_mem _ hx))]
    simp

/-! ## The status query: sorting and row decoding -/

theorem insertRow_perm (r : LedgerRow) : ∀ l, List.Perm (insertRow r l) (r :: l) := by
  intro l
  induction l with
  | nil => exact List.Perm.refl _
  | cons x xs ih =>
    by_cases h : rowLe r x = true
    · simp [insertRow, h]
    · have hstep : insertRow r (x :: xs) = x :: insertRow r xs := by simp [insertRow, h]
      rw [hstep]
      exact (ih.cons x).trans (List.Perm.swap r x xs)

theorem sortRows_perm : ∀ l, List.Perm (sortRows l) l := by
  intro l
  induction l with
  | nil => exact List.Perm.refl _
  | cons x xs ih => exact (insertRow_perm x (sortRows xs)).trans (ih.cons x)

theorem decodeRows_all_some :
    ∀ l : List LedgerRow, (∀ r ∈ l, r.executionTimeMs ≠ none) →
      ∃ sts, decodeRows l = some sts ∧ sts.map statusTuple = l.map rowTuple := by
  intro l
  induction l with
  | nil => intro _; exact ⟨[], rfl, rfl⟩
  | cons r rs ih =>
    intro h
    obtain ⟨sts, hdec, hmap⟩ := ih (fun x hx => h x (List.mem_cons_of_mem _ hx))
    cases ht : r.executionTimeMs with
    | none => exact absurd ht (h r (List.mem_cons_self r rs))
    | some t =>
      refine ⟨⟨r.module, r.version, r.name, r.appliedAt, t⟩ :: sts, ?_, ?_⟩
      · simp [decodeRows, decodeRow, ht, hdec]
      · simp [List.map_cons, hmap, statusTuple, rowTuple, ht]

theorem decodeRows_has_none :
    ∀ l : List LedgerRow, (∃ r ∈ l, r.executionTimeMs = none) → decodeRows l = none := by
  intro l
  induction l with
  | nil => intro h; obtain ⟨r, hr, _⟩ := h; cases hr
  | cons r rs ih =>
    intro h
    obtain ⟨r0, hr0, ht0⟩ := h
    rcases List.mem_cons.mp hr0 with rfl | hmem
    · cases hrest : decodeRows rs <;> simp [decodeRows, decodeRow, ht0, hrest]
    · have hrest := ih ⟨r0, hmem, ht0⟩
      cases hd : decodeRow r <;> simp [decodeRows, hd, hrest]

end CoreDb

namespace CoreDb

/-! ## Claim theorems -/

/-- C9: `id()` returns `module ++ ":version_" ++ version`; in particular a
`("users", 1)` descriptor gives `"users:version_1"` and a `("products", 5)`
descriptor gives `"products:version_5"`. -/
theorem c9_id_format :
    (∀ m : Migration, m.id = m.module ++ ":version_" ++ toString m.version) ∧
    (Migration.mk "users" 1 "create_users" "").id = "users:version_1" ∧
    (Migration.mk "products" 5 "add_column" "").id = "products:version_5" :=
  ⟨fun _ => rfl, by decide, by decide⟩

/-- C4: `checksum()` is a pure function of the `sql` field only — two
descriptors with identical SQL text have identical checksums whatever their
module, version and name (repeated calls trivially agree, the embedding being
a pure function). -/
theorem c4_checksum_deterministic (m1 m2 : Migration) (h : m1.sql = m2.sql) :
    m1.checksum = m2.checksum := by
  simp [Migration.checksum, h]

theorem c4_checksum_deterministic_witness :
    (Migration.mk "users" 1 "create" "CREATE TABLE t;").sql
        = (Migration.mk "products" 5 "drop" "CREATE TABLE t;").sql ∧
    (Migration.mk "users" 1 "create" "CREATE TABLE t;").checksum
        = (Migration.mk "products" 5 "drop" "CREATE TABLE t;").checksum :=
  ⟨rfl, c4_checksum_deterministic _ _ rfl⟩

/-- C3 fails on the code as stated: two descriptors whose SQL bodies differ
(only in interior characters) produce the same checksum, because the checksum
reads nothing but the length and the two end characters. -/
theorem c3_counterexample :
    collideA.sql ≠ collideB.sql ∧ collideA.checksum = collideB.checksum :=
  ⟨by decide, by decide⟩

/-- C3 (amended): `checksum()` is a function of the SQL's byte length, first
character and last character only; descriptors agreeing on those three have
equal checksums even when their SQL texts differ, so a difference in the SQL
yields a different checksum only when it changes one of those three
quantities — there is no overwhelming-likelihood non-collision guarantee. -/
theorem c3_checksum_only_ends (m1 m2 : Migration)
    (hlen : m1.sql.utf8ByteSize = m2.sql.utf8ByteSize)
    (hfirst : m1.sql.data.head? = m2.sql.data.head?)
    (hlast : m1.sql.data.getLast? = m2.sql.data.getLast?) :
    m1.checksum = m2.checksum := by
  simp [Migration.checksum, hlen, hfirst, hlast]

theorem c3_checksum_only_ends_witness :
    collideA.sql ≠ collideB.sql ∧
    collideA.checksum = collideB.checksum :=
  ⟨by decide, c3_checksum_only_ends collideA collideB (by decide) (by decide) (by decide)⟩

/-- C1: the claim fails on the code — this is a bug in the code, not the
spec.  At the claim's own input (module `"users"` supplied with versions
`[2, 1]` out of order, fresh database, all SQL succeeding) the runner does
group by module (third conjunct) but executes version 2's SQL before
version 1's (first conjunct): the per-module bucket keeps input order and is
never sorted by version.  The run succeeds, recording the rows in that same
wrong order. -/
theorem c1_out_of_order_executes_v2_first :
    (run_migrations okEnv freshDb [usersV2, usersV1]).trace = [usersV2.sql, usersV1.sql] ∧
    (run_migrations okEnv freshDb [usersV2, usersV1]).result = .ok () ∧
    groupByModule [usersV2, usersV1] = [("users", [usersV2, usersV1])] :=
  ⟨by decide, by decide, by decide⟩

/-- C2: if `run_migrations` succeeds, running it again with the same input
applies zero migrations, skips all `migs.length` of them, executes no SQL
(empty trace), returns the database state unchanged — and does so whatever
the stored checksums are (second conjunct: the outcome over a ledger whose
checksum column was arbitrarily rewritten is the same, i.e. no checksum
comparison takes part in the decision). -/
theorem c2_run_idempotent (env : Env) (s : DbState) (migs : List Migration)
    (h : (run_migrations env s migs).result = .ok ()) :
    run_migrations env (run_migrations env s migs).state migs
      = ⟨.ok (), (run_migrations env s migs).state, 0, migs.length, []⟩ ∧
    ∀ f : String → String,
      run_migrations env (setChecksums f (run_migrations env s migs).state) migs
        = ⟨.ok (), setChecksums f (run_migrations env s migs).state, 0, migs.length, []⟩ := by
  have hte : (run_migrations env s migs).state.tableExists = true := by
    rw [run_migrations, processAll_tableExists]
    exact ensure_tableExists s
  have hall : ∀ m ∈ processOrder migs, is_applied (run_migrations env s migs).state m = true :=
    processAll_ok_applied env (processOrder migs) (ensure_migrations_table s) 0 0 [] h
  constructor
  · rw [run_migrations, ensure_of_tableExists hte,
      processAll_all_applied env (processOrder migs) _ 0 0 [] hall]
    rw [Nat.zero_add, processOrder_length]
  · intro f
    have hte2 : (setChecksums f (run_migrations env s migs).state).tableExists = true := hte
    have hall2 : ∀ m ∈ processOrder migs,
        is_applied (setChecksums f (run_migrations env s migs).state) m = true := by
      intro m hm
      rw [is_applied_setChecksums]
      exact hall m hm
    rw [run_migrations, ensure_of_tableExists hte2,
      processAll_all_applied env (processOrder migs) _ 0 0 [] hall2]
    rw [Nat.zero_add, processOrder_length]

theorem c2_run_idempotent_witness :
    (run_migrations okEnv freshDb [usersV1, usersV2]).result = .ok () ∧
    run_migrations okEnv (run_migrations okEnv freshDb [usersV1, usersV2]).state
        [usersV1, usersV2]
      = ⟨.ok (), (run_migrations okEnv freshDb [usersV1, usersV2]).state, 0, 2, []⟩ :=
  ⟨by decide, (c2_run_idempotent okEnv freshDb [usersV1, usersV2] (by decide)).1⟩

end CoreDb

namespace CoreDb

/-- C5: when the execution of some migration's SQL fails, `run_migrations`
returns immediately with a `DatabaseError` whose message is exactly
`"Migration " ++ id ++ " failed: " ++ storeError` (hence contains both the
failing migration's `id()` and the store's error text, witnessed by the two
infix decompositions); the run's final state, counters and SQL trace are
exactly those of the migrations visited before the failing one — so no
migration after it in the visit sequence has its SQL executed or a ledger
row inserted — and the failed migration itself has no ledger entry. -/
theorem c5_failure_aborts (env : Env) (s : DbState) (migs : List Migration)
    (err : RepositoryError)
    (h : (run_migrations env s migs).result = .error err) :
    ∃ l1 m l2 e,
      processOrder migs = l1 ++ m :: l2 ∧
      env.execSql m.sql = .error e ∧
      err = .DatabaseError ("Migration " ++ m.id ++ " failed: " ++ e) ∧
      m.id.data <:+: ("Migration " ++ m.id ++ " failed: " ++ e).data ∧
      e.data <:+: ("Migration " ++ m.id ++ " failed: " ++ e).data ∧
      run_migrations env s migs
        = ⟨.error err,
           (processAll env (ensure_migrations_table s) 0 0 [] l1).state,
           (processAll env (ensure_migrations_table s) 0 0 [] l1).applied,
           (processAll env (ensure_migrations_table s) 0 0 [] l1).skipped,
           (processAll env (ensure_migrations_table s) 0 0 [] l1).trace ++ [m.sql]⟩ ∧
      (processAll env (ensure_migrations_table s) 0 0 [] l1).result = .ok () ∧
      is_applied (run_migrations env s migs).state m = false := by
  obtain ⟨l1, m, l2, e, hsplit, hex, herr, hok, heq, hna⟩ :=
    processAll_error env (processOrder migs) (ensure_migrations_table s) 0 0 [] err h
  have heq2 : run_migrations env s migs
      = ⟨.error err,
         (processAll env (ensure_migrations_table s) 0 0 [] l1).state,
         (processAll env (ensure_migrations_table s) 0 0 [] l1).applied,
         (processAll env (ensure_migrations_table s) 0 0 [] l1).skipped,
         (processAll env (ensure_migrations_table s) 0 0 [] l1).trace ++ [m.sql]⟩ := heq
  refine ⟨l1, m, l2, e, hsplit, hex, herr, ?_, ?_, heq2, hok, ?_⟩
  · refine ⟨"Migration ".data, (" failed: " ++ e).data, ?_⟩
    simp [String.data_append, List.append_assoc]
  · refine ⟨("Migration " ++ m.id ++ " failed: ").data, [], ?_⟩
    simp [String.data_append, List.append_assoc]
  · rw [heq2]
    exact hna

theorem c5_failure_aborts_witness :
    (run_migrations failV2Env freshDb [usersV1, usersV2, usersV3]).result
      = .error (.DatabaseError
          ("Migration " ++ usersV2.id ++ " failed: " ++ "syntax error at or near ADD")) ∧
    (∃ l1 m l2 e,
      processOrder [usersV1, usersV2, usersV3] = l1 ++ m :: l2 ∧
      failV2Env.execSql m.sql = .error e ∧
      (.DatabaseError ("Migration " ++ usersV2.id ++ " failed: " ++ "syntax error at or near ADD")
          : RepositoryError)
        = .DatabaseError ("Migration " ++ m.id ++ " failed: " ++ e) ∧
      m.id.data <:+: ("Migration " ++ m.id ++ " failed: " ++ e).data ∧
      e.data <:+: ("Migration " ++ m.id ++ " failed: " ++ e).data ∧
      run_migrations failV2Env freshDb [usersV1, usersV2, usersV3]
        = ⟨.error (.DatabaseError
              ("Migration " ++ usersV2.id ++ " failed: " ++ "syntax error at or near ADD")),
           (processAll failV2Env (ensure_migrations_table freshDb) 0 0 [] l1).state,
           (processAll failV2Env (ensure_migrations_table freshDb) 0 0 [] l1).applied,
           (processAll failV2Env (ensure_migrations_table freshDb) 0 0 [] l1).skipped,
           (processAll failV2Env (ensure_migrations_table freshDb) 0 0 [] l1).trace ++ [m.sql]⟩ ∧
      (processAll failV2Env (ensure_migrations_table freshDb) 0 0 [] l1).result = .ok () ∧
      is_applied (run_migrations failV2Env freshDb [usersV1, usersV2, usersV3]).state m
        = false) :=
  ⟨by decide, c5_failure_aborts failV2Env freshDb [usersV1, usersV2, usersV3] _ (by decide)⟩

/-- C6: resuming after a failure — with version 1 already recorded in the
ledger and the later versions of the same module pending (pairwise-distinct
keys), a run over the full input skips the recorded migration (skipped = 1,
its SQL absent from the trace, which consists exactly of the pending
migrations' SQL in order) and executes and records every pending one. -/
theorem c6_resume_after_failure (env : Env) (s : DbState) (m1 : Migration)
    (rest : List Migration) (T : Migration → Int)
    (hte : s.tableExists = true)
    (happ : is_applied s m1 = true)
    (hmod : ∀ m ∈ rest, m.module = m1.module)
    (hfresh : ∀ m ∈ rest, is_applied s m = false)
    (hpw : List.Pairwise (fun x y => ¬(x.module = y.module ∧ x.version = y.version)) rest)
    (hexec : ∀ m ∈ rest, env.execSql m.sql = .ok (T m)) :
    run_migrations env s (m1 :: rest)
      = ⟨.ok (), ⟨true, s.rows ++ rest.map (fun m => ledgerRowOf env m (T m))⟩,
         rest.length, 1, rest.map Migration.sql⟩ := by
  have hmodall : ∀ m ∈ m1 :: rest, m.module = m1.module := by
    intro m hm
    rcases List.mem_cons.mp hm with rfl | hm2
    · rfl
    · exact hmod m hm2
  have hord : processOrder (m1 :: rest) = m1 :: rest :=
    processOrder_single m1.module (m1 :: rest) hmodall
  rw [run_migrations, ensure_of_tableExists hte, hord]
  have hred : processAll env s 0 0 [] (m1 :: rest) = processAll env s 0 1 [] rest := by
    simp [processAll, happ]
  rw [hred, processAll_fresh env T rest s 0 1 [] hfresh hpw hexec]
  simp [hte]

theorem c6_resume_after_failure_witness :
    run_migrations okEnv v1Db [usersV1, usersV2, usersV3]
      = ⟨.ok (), ⟨true, v1Db.rows ++ [usersV2, usersV3].map (fun m => ledgerRowOf okEnv m 3)⟩,
         2, 1, [usersV2, usersV3].map Migration.sql⟩ :=
  c6_resume_after_failure okEnv v1Db usersV1 [usersV2, usersV3] (fun _ => 3)
    rfl (by decide) (by decide) (by decide) (by decide) (by decide)

/-- Both branches of `get_status` return the (possibly just-created) table
state unchanged. -/
theorem get_status_fst (s : DbState) : (get_status s).1 = ensure_migrations_table s := by
  cases hdec : decodeRows (sortRows (ensure_migrations_table s).rows) <;>
    simp [get_status, hdec]

/-- C7: the ledger is append-only under the runner's operations.  Any
`run_migrations` call changes the rows only by appending a segment in which
every row comes from an input migration whose SQL executed successfully,
carries that migration's data, checksum and measured duration
(`executionTimeMs = some t`), the appended keys are pairwise distinct and
none of them was present before — exactly one new row per newly applied
`(module, version)`.  `get_status` returns the rows unchanged, and on an
existing table the table-ensuring step touches nothing either. -/
theorem c7_ledger_append_only (env : Env) (s : DbState) (migs : List Migration) :
    (∃ seg,
      (run_migrations env s migs).state.rows = (ensure_migrations_table s).rows ++ seg ∧
      (∀ row ∈ seg, ∃ m t, m ∈ migs ∧ env.execSql m.sql = .ok t ∧ row = ledgerRowOf env m t) ∧
      List.Pairwise keyNe seg ∧
      (∀ row ∈ seg, hasEntry (ensure_migrations_table s).rows row.module row.version = false)) ∧
    (get_status s).1.rows = (ensure_migrations_table s).rows ∧
    (s.tableExists = true → (ensure_migrations_table s).rows = s.rows) := by
  refine ⟨?_, by rw [get_status_fst], fun h => by rw [ensure_of_tableExists h]⟩
  obtain ⟨seg, h1, h2, h3, h4⟩ :=
    processAll_seg env (processOrder migs) (ensure_migrations_table s) 0 0 []
  refine ⟨seg, h1, ?_, h3, h4⟩
  intro row hrow
  obtain ⟨m, t, hm, hex, hrw⟩ := h2 row hrow
  exact ⟨m, t, (processOrder_perm migs).mem_iff.mp hm, hex, hrw⟩

theorem c7_ledger_append_only_witness :
    (∃ seg,
      (run_migrations okEnv v1Db [usersV1, usersV2]).state.rows
        = (ensure_migrations_table v1Db).rows ++ seg ∧
      (∀ row ∈ seg, ∃ m t, m ∈ [usersV1, usersV2] ∧ okEnv.execSql m.sql = .ok t ∧
        row = ledgerRowOf okEnv m t) ∧
      List.Pairwise keyNe seg ∧
      (∀ row ∈ seg,
        hasEntry (ensure_migrations_table v1Db).rows row.module row.version = false)) ∧
    (get_status v1Db).1.rows = (ensure_migrations_table v1Db).rows ∧
    (v1Db.tableExists = true → (ensure_migrations_table v1Db).rows = v1Db.rows) :=
  c7_ledger_append_only okEnv v1Db [usersV1, usersV2]

end CoreDb

namespace CoreDb

/-- C8: `get_status` on a fresh ledger (zero rows, table existing or just
created) returns the empty collection without error; in general, whenever
every ledger row has its execution time populated (always the case for
ledgers written by the runner, see C10), it first ensures the table and then
returns one entry per ledger row — same module, version, name, formatted
timestamp and duration, as a permutation (the query orders by module and
version) of equal length — without mutating any row. -/
theorem c8_get_status (s : DbState) :
    (s.rows = [] → get_status s = (⟨true, []⟩, .ok [])) ∧
    ((∀ row ∈ s.rows, row.executionTimeMs ≠ none) →
      ∃ l, get_status s = (ensure_migrations_table s, .ok l) ∧
        List.Perm (l.map statusTuple) ((ensure_migrations_table s).rows.map rowTuple) ∧
        l.length = (ensure_migrations_table s).rows.length) := by
  constructor
  · intro hrows
    have hens : ensure_migrations_table s = ⟨true, []⟩ := by
      obtain ⟨te, rows⟩ := s
      simp only at hrows
      subst hrows
      cases te <;> simp [ensure_migrations_table]
    simp [get_status, hens, sortRows, decodeRows]
  · intro hsome
    have hensrows : ∀ row ∈ (ensure_migrations_table s).rows, row.executionTimeMs ≠ none := by
      intro row hrow
      by_cases hte : s.tableExists
      · rw [ensure_of_tableExists hte] at hrow
        exact hsome row hrow
      · simp [ensure_migrations_table, hte] at hrow
    have hsorted :
        ∀ row ∈ sortRows (ensure_migrations_table s).rows, row.executionTimeMs ≠ none :=
      fun row hrow => hensrows row ((sortRows_perm _).mem_iff.mp hrow)
    obtain ⟨sts, hdec, hmap⟩ := decodeRows_all_some _ hsorted
    refine ⟨sts, ?_, ?_, ?_⟩
    · simp [get_status, hdec]
    · rw [hmap]
      exact (sortRows_perm _).map rowTuple
    · have hlen := congrArg List.length hmap
      simp only [List.length_map] at hlen
      rw [hlen, (sortRows_perm _).length_eq]

theorem c8_get_status_witness :
    get_status freshDb = (⟨true, []⟩, .ok []) ∧
    (∃ l, get_status v1Db = (ensure_migrations_table v1Db, .ok l) ∧
      List.Perm (l.map statusTuple) ((ensure_migrations_table v1Db).rows.map rowTuple) ∧
      l.length = (ensure_migrations_table v1Db).rows.length) :=
  ⟨(c8_get_status freshDb).1 rfl, (c8_get_status v1Db).2 (by decide)⟩

/-- C10: the status query decodes `execution_time_ms` as non-nullable even
though the schema declares it nullable — on any existing table holding a row
with a `NULL` duration (inserted outside this subsystem) `get_status` returns
a `DatabaseError` instead of the entries; and the runner itself never creates
such a row: starting from any ledger whose durations are all populated,
every row after any `run_migrations` call still has a populated duration,
so the error is unreachable for ledgers produced solely by the runner. -/
theorem c10_status_null_decode :
    (∀ s : DbState, s.tableExists = true →
      (∃ row ∈ s.rows, row.executionTimeMs = none) →
      ∃ msg, (get_status s).2 = .error (.DatabaseError msg)) ∧
    (∀ (env : Env) (s : DbState) (migs : List Migration),
      (∀ row ∈ s.rows, row.executionTimeMs ≠ none) →
      ∀ row ∈ (run_migrations env s migs).state.rows, row.executionTimeMs ≠ none) := by
  constructor
  · rintro s hte ⟨row, hrow, hnull⟩
    have hs : ensure_migrations_table s = s := ensure_of_tableExists hte
    have hdec : decodeRows (sortRows s.rows) = none :=
      decodeRows_has_none _ ⟨row, (sortRows_perm s.rows).mem_iff.mpr hrow, hnull⟩
    refine ⟨"Failed to fetch migration status: " ++ sqlxNullDecodeError, ?_⟩
    simp [get_status, hs, hdec]
  · intro env s migs hsome row hrow
    obtain ⟨seg, h1, h2, _, _⟩ :=
      processAll_seg env (processOrder migs) (ensure_migrations_table s) 0 0 []
    have hrow2 : row ∈ (ensure_migrations_table s).rows ++ seg := by
      rw [← h1]
      exact hrow
    rcases List.mem_append.mp hrow2 with hold | hnew
    · by_cases hte : s.tableExists
      · rw [ensure_of_tableExists hte] at hold
        exact hsome row hold
      · simp [ensure_migrations_table, hte] at hold
    · obtain ⟨m, t, _, _, hrw⟩ := h2 row hnew
      rw [hrw]
      simp [ledgerRowOf]

theorem c10_status_null_decode_witness :
    (∃ msg, (get_status nullDb).2 = .error (.DatabaseError msg)) ∧
    (∀ row ∈ (run_migrations okEnv freshDb [usersV1]).state.rows,
      row.executionTimeMs ≠ none) :=
  ⟨c10_status_null_decode.1 nullDb rfl ⟨nullRow, by decide, rfl⟩,
   c10_status_null_decode.2 okEnv freshDb [usersV1] (by decide)⟩

end CoreDb
